import Mathlib

/-!
Verification development for the actor scheduler core of
`src/libponyrt/sched/scheduler.c` (ponyc runtime).

The C code is shallowly embedded: queues become lists (pop at the head,
push at the tail), the per-worker scalar state becomes a structure,
control-message handling becomes a step function on that structure, and
cross-thread nondeterminism (victim pops, the global inject queue, the
CPU tick counter, incoming mailbox messages, `asio_stop` results) becomes
an explicit oracle.  Assertions (`pony_assert`) are modelled by returning
`Option`: `none` is an assertion failure.
-/

/-- Actor handles are opaque to the scheduler; we model them as naturals. -/
abbrev ActorId := Nat

/-- The control-message kinds of `sched_msg_t` in scheduler.c, with their
payloads (`pony_msgi_t.i`). -/
inductive Msg where
  | block : Msg
  | unblock : Msg
  | cnf : Nat → Msg
  | ack : Nat → Msg
  | terminate : Msg
  | unmuteActor : ActorId → Msg
  | noisyAsio : Msg
  | unnoisyAsio : Msg
deriving DecidableEq, Repr

/-- Modelled from the spec: the `scheduler_t` record is declared in
`sched/scheduler.h`, which is not among the sources; its fields follow the
spec's Data Model section (run queue, mute table, and the scalar state
`block_count`, `ack_token`, `ack_count`, `terminate`, `asio_noisy`,
`asio_stopped`).  `blockCount` is a 32-bit counter (the code compares it
with the 32-bit `scheduler_count`, and the spec notes its decrement may
conceptually underflow), so its updates are taken modulo `2^32`.
`ackToken` is the coordinator's round id, which the spec describes as
monotonically increasing; it is modelled as an unbounded natural.
The mute table (`mutemap.h`, also not among the sources) is modelled as an
association list from receiver to the list of its muted senders, and the
per-actor atomic `muted` counters (`actor.h`) as a function
`ActorId → Nat`.  `sent` logs every `send_msg` performed by this worker as
a `(destination, message)` pair, in order. -/
structure SchedState where
  ownq : List ActorId
  mutemap : List (ActorId × List ActorId)
  muted : ActorId → Nat
  blockCount : Nat
  ackToken : Nat
  ackCount : Nat
  terminate : Bool
  asioNoisy : Bool
  asioStopped : Bool
  sent : List (Nat × Msg)

/-- Process-wide data that is fixed during the steps we verify:
`scheduler_count`, the `detect_quiescence` atomic, and the per-actor
`FLAG_UNSCHEDULED` flag (owned by actor.c, not among the sources; the
scheduler only reads it through `has_flag`). -/
structure Ctx where
  schedulerCount : Nat
  detectQuiescence : Bool
  unscheduled : ActorId → Bool

/-- Model of `send_msg(to, msg, arg)`: the message is appended to the log. -/
def send_msg (s : SchedState) (dst : Nat) (m : Msg) : SchedState :=
  { s with sent := s.sent ++ [(dst, m)] }

/-- The list of log entries produced by `send_msg_all(msg, arg)`. -/
def broadcastAll (count : Nat) (m : Msg) : List (Nat × Msg) :=
  (List.range count).map (fun i => (i, m))

/-- Model of `send_msg_all(msg, arg)`: one `send_msg` per worker `0 .. count-1`. -/
def send_msg_all (c : Ctx) (s : SchedState) (m : Msg) : SchedState :=
  { s with sent := s.sent ++ broadcastAll c.schedulerCount m }

/-! ## Thread registration (`pony_register_thread` / `pony_unregister_thread`)

The thread-local `this_scheduler` is modelled as an `Option` of a scratch
record; the `Bool` returned by registration records whether a
`POOL_ALLOC` happened. -/

/-- The scratch scheduler record allocated for a foreign thread: the code
zeroes it and stores only the thread id. -/
structure ThreadRec where
  tid : Nat
deriving DecidableEq, Repr

/-- Model of `pony_register_thread`: a no-op when already registered, otherwise
allocate a zeroed record holding the calling thread's id.  The second
component is true iff an allocation happened. -/
def pony_register_thread (self : Option ThreadRec) (tid : Nat) :
    Option ThreadRec × Bool :=
  match self with
  | some r => (some r, false)
  | none => (some ⟨tid⟩, true)

/-- Model of `pony_unregister_thread`: a no-op when not registered, otherwise free
the record and clear the thread-local. -/
def pony_unregister_thread (self : Option ThreadRec) : Option ThreadRec :=
  match self with
  | some _ => none
  | none => none

/-! ## The run loop's scheduling decision (`run`, lines 393-417)

`pop_global` consults the global inject queue first and the worker's own
run queue second; queues are lists popped at the head. -/

/-- Model of `pop_global(sched)`: pop the inject queue, and only if that is empty
pop the worker's own queue.  Returns the popped actor (if any) and the two
remaining queues. -/
def pop_global (inj q : List ActorId) :
    Option ActorId × List ActorId × List ActorId :=
  match inj with
  | a :: rest => (some a, rest, q)
  | [] =>
    match q with
    | b :: rest => (some b, [], rest)
    | [] => (none, [], [])

/-- The tail of one `run` iteration: after `ponyint_actor_run` returned
`reschedule` for the current actor `cur`, pop `next` via `pop_global` and
decide which actor runs next.  Returns the new current actor and the two
queues. -/
def run_next (cur : ActorId) (reschedule : Bool) (inj q : List ActorId) :
    Option ActorId × List ActorId × List ActorId :=
  match pop_global inj q with
  | (next, inj2, q2) =>
    if reschedule then
      match next with
      | some n => (some n, inj2, q2 ++ [cur])
      | none => (some cur, inj2, q2)
    else (next, inj2, q2)

/-! ## The mute table (`ponyint_sched_unmute_senders`, lines 635-692) -/

/-- Model of `ponyint_mutemap_get`: find the row for `recv` in the mute table. -/
def findRow : List (ActorId × List ActorId) → ActorId → Option (List ActorId)
  | [], _ => none
  | (r, row) :: rest, recv => if r = recv then some row else findRow rest recv

/-- Model of `ponyint_mutemap_removeindex`: remove the row found for `recv` (the
hashmap holds at most one entry per key; we erase the first match). -/
def removeRow : List (ActorId × List ActorId) → ActorId →
    List (ActorId × List ActorId)
  | [], _ => []
  | (r, row) :: rest, recv =>
    if r = recv then rest else (r, row) :: removeRow rest recv

/-- The first loop of `ponyint_sched_unmute_senders`: walk the row,
assert each sender's `muted` counter is positive (`none` on violation),
decrement it, and collect (in iteration order) the senders whose counter
reached zero — the `needs_unmuting` stack is pushed in this order. -/
def collectZero : List ActorId → (ActorId → Nat) →
    Option ((ActorId → Nat) × List ActorId)
  | [], m => some (m, [])
  | a :: rest, m =>
    if m a = 0 then none
    else
      match collectZero rest (fun x => if x = a then m a - 1 else m x) with
      | none => none
      | some (mf, ns) => some (mf, if m a - 1 = 0 then a :: ns else ns)

/-- The second loop of `ponyint_sched_unmute_senders`: pop each actor off
the `needs_unmuting` stack; if it is not flagged `UNSCHEDULED`, unmute it
and push it onto this worker's run queue (`ponyint_sched_add` with a
non-null scheduler), counting it in `actors_rescheduled`; in every case
broadcast `UNMUTE_ACTOR` to all workers
(`ponyint_sched_start_global_unmute`).  The argument list is the stack's
pop order. -/
def processUnmute (c : Ctx) : List ActorId → SchedState → Nat →
    SchedState × Nat
  | [], s, k => (s, k)
  | a :: rest, s, k =>
    if c.unscheduled a then
      processUnmute c rest
        (send_msg_all c s (Msg.unmuteActor a)) k
    else
      processUnmute c rest
        (send_msg_all c { s with ownq := s.ownq ++ [a] } (Msg.unmuteActor a))
        (k + 1)

/-- Model of `ponyint_sched_unmute_senders(ctx, actor)`: if `actor` has no row in
this worker's mute table, nothing changes and the call returns false.
Otherwise decrement every sender in the row, remove the row, then process
the `needs_unmuting` stack (reverse of collection order); return true iff
at least one actor was rescheduled. -/
def ponyint_sched_unmute_senders (c : Ctx) (s : SchedState) (recv : ActorId) :
    Option (SchedState × Bool) :=
  match findRow s.mutemap recv with
  | none => some (s, false)
  | some row =>
    match collectZero row s.muted with
    | none => none
    | some (m2, needs) =>
      match processUnmute c needs.reverse
          { s with muted := m2, mutemap := removeRow s.mutemap recv } 0 with
      | (s2, k) => some (s2, decide (0 < k))

/-! ## Control-message handling (`read_msg`, lines 87-182)

One switch arm of `read_msg` per message.  The second component of the
result is this message's contribution to `run_queue_changed`.
`ponyint_asio_start` is modelled from the spec as always succeeding (the
spec states `asio_start()` must succeed as a postcondition of `UNBLOCK`
handling), so the `pony_assert(asio_started)` always passes. -/

/-- One `read_msg` switch arm. -/
def handleMsg (c : Ctx) (s : SchedState) (m : Msg) :
    Option (SchedState × Bool) :=
  match m with
  | Msg.block =>
    let bc := (s.blockCount + 1) % 4294967296
    let s1 := { s with blockCount := bc }
    if c.detectQuiescence ∧ bc = c.schedulerCount then
      some (send_msg_all c s1 (Msg.cnf s1.ackToken), false)
    else
      some (s1, false)
  | Msg.unblock =>
    some ({ s with
      asioStopped := false,
      blockCount := (s.blockCount + 4294967295) % 4294967296,
      ackToken := s.ackToken + 1,
      ackCount := 0 }, false)
  | Msg.cnf tok => some (send_msg s 0 (Msg.ack tok), false)
  | Msg.ack tok =>
    if tok = s.ackToken then
      some ({ s with ackCount := s.ackCount + 1 }, false)
    else
      some (s, false)
  | Msg.terminate => some ({ s with terminate := true }, false)
  | Msg.unmuteActor a => ponyint_sched_unmute_senders c s a
  | Msg.noisyAsio => some ({ s with asioNoisy := true }, false)
  | Msg.unnoisyAsio => some ({ s with asioNoisy := false }, false)

/-- Model of `read_msg`: drain a list of delivered messages, OR-ing the
`run_queue_changed` flags. -/
def read_msg (c : Ctx) : SchedState → List Msg → Option (SchedState × Bool)
  | s, [] => some (s, false)
  | s, m :: rest =>
    match handleMsg c s m with
    | none => none
    | some (s1, b1) =>
      match read_msg c s1 rest with
      | none => none
      | some (s2, b2) => some (s2, b1 || b2)

/-! ## The quiescence step (`quiescent`, lines 191-216) -/

/-- Model of `quiescent(sched, tsc, tsc2)`: returns true (terminate) iff the
worker's terminate flag is set.  Otherwise, when every worker has acked
the current round, either broadcast `TERMINATE` (ASIO already stopped) or
try to stop ASIO and start a fresh CNF/ACK round.  `stopOk` is the result
of the external `ponyint_asio_stop()`. -/
def quiescent (c : Ctx) (stopOk : Bool) (s : SchedState) :
    Bool × SchedState :=
  if s.terminate then
    (true, s)
  else if s.ackCount = c.schedulerCount then
    if s.asioStopped then
      (false, { (send_msg_all c s Msg.terminate) with
        ackToken := s.ackToken + 1, ackCount := 0 })
    else if stopOk then
      (false, send_msg_all c
        { s with
          asioStopped := true
          ackToken := s.ackToken + 1
          ackCount := 0 }
        (Msg.cnf (s.ackToken + 1)))
    else
      (false, s)
  else
    (false, s)

/-- C10: `pony_register_thread` is idempotent — a second call while
registered returns the same record and allocates nothing;
`pony_unregister_thread` on an unregistered thread is a no-op; and a
register followed by an unregister returns the thread to the unregistered
state. -/
theorem register_thread_idempotent :
    (∀ (r : ThreadRec) (t : Nat),
      pony_register_thread (some r) t = (some r, false)) ∧
    pony_unregister_thread none = none ∧
    (∀ t : Nat,
      pony_unregister_thread (pony_register_thread none t).1 = none) := by
  refine ⟨fun r t => rfl, rfl, fun t => rfl⟩

/-- C8: after running `cur` with result `reschedule`, `next` is popped
with injection-queue priority; if `reschedule` and `next` exists, `cur`
goes to the tail of the own queue and `next` becomes current; if
`reschedule` and no `next`, `cur` stays current; if not `reschedule`,
`next` (possibly none) becomes current and `cur` is not re-queued. -/
theorem run_next_spec :
    ∀ (cur : ActorId) (reschedule : Bool) (inj q : List ActorId),
      (∀ a rest, inj = a :: rest → (pop_global inj q).1 = some a) ∧
      (∀ b rest, inj = [] → q = b :: rest → (pop_global inj q).1 = some b) ∧
      (∀ n inj2 q2, reschedule = true → pop_global inj q = (some n, inj2, q2) →
        run_next cur reschedule inj q = (some n, inj2, q2 ++ [cur])) ∧
      (∀ inj2 q2, reschedule = true → pop_global inj q = (none, inj2, q2) →
        run_next cur reschedule inj q = (some cur, inj2, q2)) ∧
      (reschedule = false →
        run_next cur reschedule inj q = pop_global inj q) := by
  intro cur reschedule inj q
  refine ⟨?_, ?_, ?_, ?_, ?_⟩
  · intro a rest h; subst h; rfl
  · intro b rest h1 h2; subst h1; subst h2; rfl
  · intro n inj2 q2 hr hp
    simp only [run_next, hp, hr, if_true]
  · intro inj2 q2 hr hp
    simp only [run_next, hp, hr, if_true]
  · intro hr
    simp only [run_next, hr, if_false]
    rcases pop_global inj q with ⟨next, inj2, q2⟩
    rfl

/-- Witness for C8 at a concrete input: rescheduling with a non-empty own
queue pushes the current actor to the tail. -/
theorem run_next_spec_witness :
    run_next 7 true [] [3] = (some 3, [], [7]) := by
  have h := (run_next_spec 7 true [] [3]).2.2.1 3 [] [] rfl rfl
  simpa using h

/-! ## Helper lemmas -/

/-- The broadcast log entries collected over a list of actors, in order. -/
def sentBroadcasts (c : Ctx) : List ActorId → List (Nat × Msg)
  | [] => []
  | a :: rest =>
    broadcastAll c.schedulerCount (Msg.unmuteActor a) ++ sentBroadcasts c rest

theorem processUnmute_eq (c : Ctx) :
    ∀ (l : List ActorId) (s : SchedState) (k : Nat),
    processUnmute c l s k =
      ({ s with
          ownq := s.ownq ++ l.filter (fun a => !c.unscheduled a),
          sent := s.sent ++ sentBroadcasts c l },
       k + (l.filter (fun a => !c.unscheduled a)).length) := by
  intro l
  induction l with
  | nil => intro s k; simp [processUnmute, sentBroadcasts]
  | cons a rest ih =>
    intro s k
    by_cases h : c.unscheduled a
    · simp [processUnmute, h, ih, send_msg_all, sentBroadcasts,
        List.filter_cons, List.append_assoc]
    · simp [processUnmute, h, ih, send_msg_all, sentBroadcasts,
        List.filter_cons, List.append_assoc]
      omega

theorem mem_broadcastAll (count : Nat) (m : Msg) (w : Nat) (hw : w < count) :
    (w, m) ∈ broadcastAll count m := by
  simp [broadcastAll]
  exact hw

theorem mem_sentBroadcasts (c : Ctx) :
    ∀ (l : List ActorId) (a : ActorId), a ∈ l → ∀ w, w < c.schedulerCount →
      (w, Msg.unmuteActor a) ∈ sentBroadcasts c l := by
  intro l
  induction l with
  | nil => intro a ha; cases ha
  | cons b rest ih =>
    intro a ha w hw
    rcases List.mem_cons.mp ha with h | h
    · subst h
      exact List.mem_append_left _ (mem_broadcastAll _ _ _ hw)
    · exact List.mem_append_right _ (ih a h w hw)

/-- The function `ponyint_sched_unmute_senders` never changes the ack token. -/
theorem unmute_senders_ackToken (c : Ctx) (s : SchedState) (recv : ActorId)
    (s2 : SchedState) (b : Bool)
    (h : ponyint_sched_unmute_senders c s recv = some (s2, b)) :
    s2.ackToken = s.ackToken := by
  unfold ponyint_sched_unmute_senders at h
  cases hf : findRow s.mutemap recv with
  | none => simp [hf] at h; simp [h.1]
  | some row =>
    simp only [hf] at h
    cases hc : collectZero row s.muted with
    | none => simp [hc] at h
    | some p =>
      obtain ⟨m2, needs⟩ := p
      simp only [hc, processUnmute_eq, Option.some.injEq, Prod.mk.injEq] at h
      obtain ⟨h1, h2⟩ := h
      subst h1
      rfl

/-- A concrete context used in witnesses and counterexamples. -/
def cdemo : Ctx :=
  { schedulerCount := 1, detectQuiescence := true,
    unscheduled := fun _ => false }

/-- A concrete all-zero worker state used in witnesses and
counterexamples. -/
def s0demo : SchedState :=
  { ownq := [], mutemap := [], muted := fun _ => 0, blockCount := 0,
    ackToken := 0, ackCount := 0, terminate := false, asioNoisy := false,
    asioStopped := false, sent := [] }

/-- C5: handling `BLOCK` increments `block_count` by one, broadcasts
`CNF` with the current `ack_token` to every worker iff
`detect_quiescence` is set and the incremented count equals
`scheduler_count`, and changes nothing else. -/
theorem read_msg_block_spec (c : Ctx) (s : SchedState)
    (h : s.blockCount + 1 < 4294967296) :
    handleMsg c s Msg.block =
      some ({ s with
        blockCount := s.blockCount + 1,
        sent := s.sent ++
          (if c.detectQuiescence ∧ s.blockCount + 1 = c.schedulerCount then
            broadcastAll c.schedulerCount (Msg.cnf s.ackToken)
          else []) }, false) := by
  have hm : (s.blockCount + 1) % 4294967296 = s.blockCount + 1 :=
    Nat.mod_eq_of_lt h
  simp only [handleMsg, hm, send_msg_all]
  by_cases hd : c.detectQuiescence ∧ s.blockCount + 1 = c.schedulerCount
  · rw [if_pos hd, if_pos hd]
  · rw [if_neg hd, if_neg hd]
    simp

/-- Witness for C5: one worker, quiescence detection armed, block count
going from 0 to 1 = scheduler_count triggers the CNF broadcast. -/
theorem read_msg_block_spec_witness :
    handleMsg cdemo s0demo Msg.block =
      some ({ s0demo with
        blockCount := 1,
        sent := [(0, Msg.cnf 0)] }, false) := by
  have h := read_msg_block_spec cdemo s0demo (by decide)
  simpa [cdemo, s0demo, broadcastAll] using h

/-- C7 counterexample: with `block_count = 0`, an `UNBLOCK` does not fail
any assertion (the handler returns a state rather than `none`) and the
counter wraps to `2^32 - 1`. -/
theorem unblock_no_assert_counterexample :
    (handleMsg cdemo s0demo Msg.unblock).isSome = true ∧
    (handleMsg cdemo s0demo Msg.unblock).map (fun p => p.1.blockCount) =
      some 4294967295 := by
  exact ⟨rfl, rfl⟩

/-- C7 (amended): `UNBLOCK` handling performs no assertion on
`block_count`; it decrements it modulo `2^32` (together with restarting
ASIO, bumping `ack_token` and resetting `ack_count`), so when a matching
`BLOCK` preceded (hence `block_count > 0`) the decrement is exact and
never underflows, while at `block_count = 0` it wraps rather than
asserting. -/
theorem read_msg_unblock_spec (c : Ctx) (s : SchedState)
    (h0 : 0 < s.blockCount) (h1 : s.blockCount < 4294967296) :
    handleMsg c s Msg.unblock =
      some ({ s with
        asioStopped := false,
        blockCount := s.blockCount - 1,
        ackToken := s.ackToken + 1,
        ackCount := 0 }, false) := by
  have hm : (s.blockCount + 4294967295) % 4294967296 = s.blockCount - 1 := by
    omega
  simp [handleMsg, hm]

/-- Witness for C7 (amended): decrementing from 1 yields 0 exactly. -/
theorem read_msg_unblock_spec_witness :
    handleMsg cdemo { s0demo with blockCount := 1 } Msg.unblock =
      some ({ s0demo with
        blockCount := 0,
        asioStopped := false,
        ackToken := 1,
        ackCount := 0 }, false) := by
  have h := read_msg_unblock_spec cdemo { s0demo with blockCount := 1 }
    (by decide) (by decide)
  simpa [s0demo] using h

/-- A concrete state whose terminate flag is already set, used for the C2
counterexample: every worker has acked the current round and ASIO is
stopped. -/
def sTermDemo : SchedState :=
  { s0demo with terminate := true, ackCount := 1, asioStopped := true }

/-- C2 counterexample: with the terminate flag set, `quiescent` runs with
`ack_count = scheduler_count` and `asio_stopped = true`, yet broadcasts no
`TERMINATE`, does not increment `ack_token`, and does not reset anything —
it merely returns true. -/
theorem quiescent_terminate_counterexample :
    sTermDemo.ackCount = cdemo.schedulerCount ∧
    sTermDemo.asioStopped = true ∧
    (quiescent cdemo true sTermDemo).2.sent = [] ∧
    (quiescent cdemo true sTermDemo).2.ackToken = sTermDemo.ackToken ∧
    (quiescent cdemo true sTermDemo).1 = true := by
  exact ⟨rfl, rfl, rfl, rfl, rfl⟩

/-- C2 (amended): whenever `quiescent` runs with `ack_count` equal to
`scheduler_count` and the terminate flag clear: if `asio_stopped` is
already set it broadcasts `TERMINATE` to every worker, increments
`ack_token` and resets `ack_count`; otherwise, if `asio_stop()` returns
true, it sets `asio_stopped`, increments `ack_token`, resets `ack_count`
and broadcasts a fresh `CNF` carrying the new token to every worker; if
`asio_stop()` returns false, nothing changes and nothing is sent. -/
theorem quiescent_spec (c : Ctx) (stopOk : Bool) (s : SchedState)
    (ht : s.terminate = false) (ha : s.ackCount = c.schedulerCount) :
    (s.asioStopped = true →
      quiescent c stopOk s = (false,
        { s with
          sent := s.sent ++ broadcastAll c.schedulerCount Msg.terminate,
          ackToken := s.ackToken + 1,
          ackCount := 0 })) ∧
    (s.asioStopped = false → stopOk = true →
      quiescent c stopOk s = (false,
        { s with
          asioStopped := true,
          ackToken := s.ackToken + 1,
          ackCount := 0,
          sent := s.sent ++
            broadcastAll c.schedulerCount (Msg.cnf (s.ackToken + 1)) })) ∧
    (s.asioStopped = false → stopOk = false →
      quiescent c stopOk s = (false, s)) := by
  refine ⟨?_, ?_, ?_⟩
  · intro hs
    simp [quiescent, ht, ha, hs, send_msg_all]
  · intro hs hok
    simp [quiescent, ht, ha, hs, hok, send_msg_all]
  · intro hs hok
    simp [quiescent, ht, ha, hs, hok]

/-- Witness for C2 (amended): with one worker fully acked and ASIO
stopped, `quiescent` broadcasts `TERMINATE` and starts a fresh round. -/
theorem quiescent_spec_witness :
    quiescent cdemo true { s0demo with ackCount := 1, asioStopped := true } =
      (false, { s0demo with
        ackCount := 0,
        asioStopped := true,
        ackToken := 1,
        sent := [(0, Msg.terminate)] }) := by
  have h := (quiescent_spec cdemo true
    { s0demo with ackCount := 1, asioStopped := true } rfl rfl).1 rfl
  simpa [s0demo, broadcastAll] using h

/-! ## Event sequences for the coordinator (C6) -/

/-- One coordinator-side step: either handling one delivered control
message (`read_msg`) or one `quiescent` invocation with a given
`asio_stop` result. -/
inductive SchedEv where
  | deliver : Msg → SchedEv
  | quiesce : Bool → SchedEv

/-- Apply one event to the worker state. -/
def stepEv (c : Ctx) (s : SchedState) : SchedEv → Option SchedState
  | SchedEv.deliver m => (handleMsg c s m).map Prod.fst
  | SchedEv.quiesce stopOk => some (quiescent c stopOk s).2

/-- Apply a sequence of events. -/
def runEvents (c : Ctx) : SchedState → List SchedEv → Option SchedState
  | s, [] => some s
  | s, e :: rest =>
    match stepEv c s e with
    | none => none
    | some s1 => runEvents c s1 rest

/-- A single message-handling step never decreases the ack token. -/
theorem handleMsg_ackToken_mono (c : Ctx) (s : SchedState) (m : Msg)
    (s' : SchedState) (b : Bool) (h : handleMsg c s m = some (s', b)) :
    s.ackToken ≤ s'.ackToken := by
  cases m with
  | block =>
    simp only [handleMsg] at h
    by_cases hd : c.detectQuiescence ∧
        (s.blockCount + 1) % 4294967296 = c.schedulerCount
    · rw [if_pos hd] at h
      cases h.symm
      · simp [send_msg_all]
    · rw [if_neg hd] at h
      cases h.symm
      · simp
  | unblock =>
    simp only [handleMsg, Option.some.injEq, Prod.mk.injEq] at h
    rw [← h.1]
    simp
  | cnf tok =>
    simp only [handleMsg, Option.some.injEq, Prod.mk.injEq] at h
    rw [← h.1]
    simp [send_msg]
  | ack tok =>
    simp only [handleMsg] at h
    by_cases ht : tok = s.ackToken
    · rw [if_pos ht] at h
      cases h.symm
      · simp
    · rw [if_neg ht] at h
      cases h.symm
      · simp
  | terminate =>
    simp only [handleMsg, Option.some.injEq, Prod.mk.injEq] at h
    rw [← h.1]
  | unmuteActor a =>
    simp only [handleMsg] at h
    rw [unmute_senders_ackToken c s a s' b h]
  | noisyAsio =>
    simp only [handleMsg, Option.some.injEq, Prod.mk.injEq] at h
    rw [← h.1]
  | unnoisyAsio =>
    simp only [handleMsg, Option.some.injEq, Prod.mk.injEq] at h
    rw [← h.1]

/-- A single `quiescent` step never decreases the ack token. -/
theorem quiescent_ackToken_mono (c : Ctx) (stopOk : Bool) (s : SchedState) :
    s.ackToken ≤ (quiescent c stopOk s).2.ackToken := by
  unfold quiescent
  repeat' split
  all_goals simp [send_msg_all]

/-- C6: over any sequence of message-handling and quiescent steps the
coordinator's `ack_token` never decreases; and an `ACK` increments
`ack_count` iff its token equals the current `ack_token`, any other token
changing no state. -/
theorem ack_token_monotone (c : Ctx) :
    (∀ (s : SchedState) (evs : List SchedEv) (s' : SchedState),
      runEvents c s evs = some s' → s.ackToken ≤ s'.ackToken) ∧
    (∀ (s : SchedState) (tok : Nat), tok = s.ackToken →
      handleMsg c s (Msg.ack tok) =
        some ({ s with ackCount := s.ackCount + 1 }, false)) ∧
    (∀ (s : SchedState) (tok : Nat), tok ≠ s.ackToken →
      handleMsg c s (Msg.ack tok) = some (s, false)) := by
  refine ⟨?_, ?_, ?_⟩
  · intro s evs
    induction evs generalizing s with
    | nil =>
      intro s' h
      simp only [runEvents, Option.some.injEq] at h
      rw [h]
    | cons e rest ih =>
      intro s' h
      cases he : stepEv c s e with
      | none => simp [runEvents, he] at h
      | some s1 =>
        simp only [runEvents, he] at h
        refine le_trans ?_ (ih s1 s' h)
        cases e with
        | deliver m =>
          simp only [stepEv, Option.map_eq_some'] at he
          obtain ⟨⟨s2, b⟩, hm, hp⟩ := he
          exact hp ▸ handleMsg_ackToken_mono c s m s2 b hm
        | quiesce stopOk =>
          simp only [stepEv, Option.some.injEq] at he
          rw [← he]
          exact quiescent_ackToken_mono c stopOk s
  · intro s tok ht
    simp [handleMsg, ht]
  · intro s tok ht
    simp [handleMsg, ht]

/-- Witness for C6: a block, a stale ack, a fresh ack and a quiescent
step leave the token monotone, and the two ack behaviours at token 0. -/
theorem ack_token_monotone_witness :
    (runEvents cdemo s0demo
      [SchedEv.deliver Msg.block, SchedEv.deliver (Msg.ack 5),
       SchedEv.deliver (Msg.ack 0), SchedEv.quiesce false] ≠ none) ∧
    (handleMsg cdemo s0demo (Msg.ack 0) =
      some ({ s0demo with ackCount := 1 }, false)) ∧
    (handleMsg cdemo s0demo (Msg.ack 5) = some (s0demo, false)) := by
  refine ⟨?_, ?_, ?_⟩
  · intro hcon
    cases hrun : runEvents cdemo s0demo
      [SchedEv.deliver Msg.block, SchedEv.deliver (Msg.ack 5),
       SchedEv.deliver (Msg.ack 0), SchedEv.quiesce false] with
    | none =>
      have h0 : runEvents cdemo s0demo
        [SchedEv.deliver Msg.block, SchedEv.deliver (Msg.ack 5),
         SchedEv.deliver (Msg.ack 0), SchedEv.quiesce false] ≠ none := by
        simp [runEvents, stepEv, handleMsg, quiescent, cdemo, s0demo,
          send_msg_all, send_msg, ponyint_sched_unmute_senders]
      exact h0 hrun
    | some sF => rw [hrun] at hcon; cases hcon
  · have h := (ack_token_monotone cdemo).2.1 s0demo 0 rfl
    exact h
  · have h := (ack_token_monotone cdemo).2.2 s0demo 5 (by decide)
    exact h

/-! ## Correctness of `ponyint_sched_unmute_senders` (C1) -/

/-- If a receiver is not a key of the table, `findRow` misses. -/
theorem findRow_eq_none_of_not_mem :
    ∀ (mm : List (ActorId × List ActorId)) (recv : ActorId),
      recv ∉ mm.map Prod.fst → findRow mm recv = none := by
  intro mm
  induction mm with
  | nil => intro recv _; rfl
  | cons p rest ih =>
    intro recv hmem
    obtain ⟨r, row⟩ := p
    simp only [List.map_cons, List.mem_cons] at hmem
    push_neg at hmem
    simp only [findRow, if_neg (Ne.symm hmem.1)]
    exact ih recv hmem.2

/-- Removing a receiver's row removes its key entirely when the table's
keys are distinct. -/
theorem findRow_removeRow :
    ∀ (mm : List (ActorId × List ActorId)) (recv : ActorId),
      (mm.map Prod.fst).Nodup → findRow (removeRow mm recv) recv = none := by
  intro mm
  induction mm with
  | nil => intro recv _; rfl
  | cons p rest ih =>
    intro recv hnd
    obtain ⟨r, row⟩ := p
    simp only [List.map_cons, List.nodup_cons] at hnd
    by_cases hr : r = recv
    · subst hr
      simp only [removeRow, if_pos rfl]
      exact findRow_eq_none_of_not_mem rest r hnd.1
    · simp only [removeRow, if_neg hr, findRow, if_neg hr]
      exact ih recv hnd.2

/-- Characterisation of the decrement-and-collect pass: under the row's
set-uniqueness and the asserted positivity, every counter in the row
drops by exactly one, counters outside the row are untouched, and the
collected stack is exactly the senders whose counter was 1. -/
theorem collectZero_spec :
    ∀ (row : List ActorId) (m : ActorId → Nat), row.Nodup →
      (∀ a ∈ row, 0 < m a) →
      ∃ mf ns, collectZero row m = some (mf, ns) ∧
        (∀ a ∈ row, mf a = m a - 1) ∧
        (∀ a, a ∉ row → mf a = m a) ∧
        ns = row.filter (fun a => m a == 1) := by
  intro row
  induction row with
  | nil =>
    intro m _ _
    exact ⟨m, [], rfl, by simp, fun a _ => rfl, rfl⟩
  | cons a rest ih =>
    intro m hnd hpos
    have ha : 0 < m a := hpos a (List.mem_cons_self a rest)
    have hanotin : a ∉ rest := (List.nodup_cons.mp hnd).1
    have hndr : rest.Nodup := (List.nodup_cons.mp hnd).2
    have hposr : ∀ b ∈ rest, 0 < (fun x => if x = a then m a - 1 else m x) b := by
      intro b hb
      have hba : b ≠ a := fun he => hanotin (he ▸ hb)
      simpa [hba] using hpos b (List.mem_cons_of_mem a hb)
    obtain ⟨mf, ns, hcol, hdec, hout, hns⟩ :=
      ih (fun x => if x = a then m a - 1 else m x) hndr hposr
    refine ⟨mf, if m a - 1 = 0 then a :: ns else ns, ?_, ?_, ?_, ?_⟩
    · simp only [collectZero, if_neg (Nat.pos_iff_ne_zero.mp ha), hcol]
    · intro b hb
      rcases List.mem_cons.mp hb with hba | hbr
      · subst hba
        have := hout b hanotin
        simpa using this
      · have hba : b ≠ a := fun he => hanotin (he ▸ hbr)
        have := hdec b hbr
        simpa [hba] using this
    · intro b hb
      simp only [List.mem_cons] at hb
      push_neg at hb
      have := hout b hb.2
      simpa [hb.1] using this
    · have hfe : rest.filter (fun x => (if x = a then m a - 1 else m x) == 1) =
          rest.filter (fun x => m x == 1) := by
        apply List.filter_congr
        intro b hb
        have hba : b ≠ a := fun he => hanotin (he ▸ hb)
        simp [hba]
      rw [hns, hfe]
      by_cases h1 : m a = 1
      · simp [List.filter_cons, h1]
      · have : ¬(m a - 1 = 0) := by omega
        simp [List.filter_cons, this, h1]

/-- C1: processing an unmute of receiver `recv` on a worker.  If `recv`
is not a key of the mute table, state is unchanged and the call returns
false.  Otherwise each sender in the row has its `muted` counter
decremented by exactly one (others untouched), the entire row is removed,
each sender whose counter reached zero and is not `UNSCHEDULED` is pushed
onto this worker's run queue, every sender whose counter reached zero has
`UNMUTE_ACTOR` broadcast to every worker, and the call returns true iff
at least one sender was rescheduled. -/
theorem unmute_senders_spec (c : Ctx) (s : SchedState) (recv : ActorId) :
    (findRow s.mutemap recv = none →
       ponyint_sched_unmute_senders c s recv = some (s, false)) ∧
    (∀ row, findRow s.mutemap recv = some row → row.Nodup →
       (∀ a ∈ row, 0 < s.muted a) → (s.mutemap.map Prod.fst).Nodup →
       ∃ s2 b, ponyint_sched_unmute_senders c s recv = some (s2, b) ∧
         (∀ a ∈ row, s2.muted a = s.muted a - 1) ∧
         (∀ a, a ∉ row → s2.muted a = s.muted a) ∧
         s2.mutemap = removeRow s.mutemap recv ∧
         findRow s2.mutemap recv = none ∧
         s2.ownq = s.ownq ++
           ((row.filter (fun a => s.muted a == 1)).reverse.filter
             (fun a => !c.unscheduled a)) ∧
         (∀ a ∈ row, s.muted a = 1 → ∀ w, w < c.schedulerCount →
           (w, Msg.unmuteActor a) ∈ s2.sent) ∧
         (b = true ↔
           ((row.filter (fun a => s.muted a == 1)).reverse.filter
             (fun a => !c.unscheduled a)) ≠ [])) := by
  constructor
  · intro hnone
    unfold ponyint_sched_unmute_senders
    rw [hnone]
  · intro row hrow hnd hpos hkeys
    obtain ⟨mf, ns, hcol, hdec, hout, hns⟩ := collectZero_spec row s.muted hnd hpos
    subst hns
    refine ⟨{ s with
        muted := mf,
        mutemap := removeRow s.mutemap recv,
        ownq := s.ownq ++
          (row.filter (fun a => s.muted a == 1)).reverse.filter
            (fun a => !c.unscheduled a),
        sent := s.sent ++
          sentBroadcasts c (row.filter (fun a => s.muted a == 1)).reverse },
      decide (0 < 0 + ((row.filter (fun a => s.muted a == 1)).reverse.filter
        (fun a => !c.unscheduled a)).length),
      ?_, ?_, ?_, ?_, ?_, ?_, ?_, ?_⟩
    · simp only [ponyint_sched_unmute_senders, hrow, hcol, processUnmute_eq]
    · intro a ha
      exact hdec a ha
    · intro a ha
      exact hout a ha
    · rfl
    · exact findRow_removeRow s.mutemap recv hkeys
    · rfl
    · intro a ha h1 w hw
      have hmem : a ∈ row.filter (fun x => s.muted x == 1) :=
        List.mem_filter.mpr ⟨ha, by simp [h1]⟩
      have hmem2 : a ∈ (row.filter (fun x => s.muted x == 1)).reverse :=
        List.mem_reverse.mpr hmem
      exact List.mem_append_right _
        (mem_sentBroadcasts c _ a hmem2 w hw)
    · simp only [decide_eq_true_eq, Nat.zero_add]
      rw [List.length_pos]

/-- A concrete worker state whose mute table maps receiver 2 to the
single sender 5, with sender 5's muted counter at 1. -/
def sMuteDemo : SchedState :=
  { s0demo with
    mutemap := [(2, [5])],
    muted := fun a => if a = 5 then 1 else 0 }

/-- Witness for C1: unmuting receiver 2 drops sender 5's counter to zero,
reschedules it onto the run queue, broadcasts its unmute, and returns
true. -/
theorem unmute_senders_spec_witness :
    ∃ s2 b, ponyint_sched_unmute_senders cdemo sMuteDemo 2 = some (s2, b) ∧
      s2.muted 5 = 0 ∧ s2.ownq = [5] ∧ s2.mutemap = [] ∧
      (0, Msg.unmuteActor 5) ∈ s2.sent ∧ b = true := by
  obtain ⟨s2, b, heq, hdec, hout, hmm, hfind, hq, hsent, hb⟩ :=
    (unmute_senders_spec cdemo sMuteDemo 2).2 [5] rfl (by decide)
      (by decide) (by decide)
  refine ⟨s2, b, heq, ?_, ?_, ?_, ?_, ?_⟩
  · simpa [sMuteDemo] using hdec 5 (by decide)
  · rw [hq]
    decide
  · rw [hmm]
    decide
  · exact hsent 5 (by decide) (by decide) 0 (by decide)
  · apply hb.mpr
    decide

/-! ## Frame lemmas for the steal loop (C3, C4, C9) -/

/-- Number of occurrences of a message kind in a send log. -/
def countMsg (m : Msg) (l : List (Nat × Msg)) : Nat :=
  (l.filter (fun p => p.2 == m)).length

theorem countMsg_append (m : Msg) (l1 l2 : List (Nat × Msg)) :
    countMsg m (l1 ++ l2) = countMsg m l1 + countMsg m l2 := by
  simp [countMsg, List.filter_append]

theorem countMsg_eq_zero (m : Msg) (l : List (Nat × Msg))
    (h : ∀ p ∈ l, p.2 ≠ m) : countMsg m l = 0 := by
  rw [countMsg, List.length_eq_zero, List.filter_eq_nil_iff]
  intro p hp
  simpa using h p hp

theorem broadcastAll_snd (n : Nat) (m : Msg) :
    ∀ p ∈ broadcastAll n m, p.2 = m := by
  intro p hp
  simp only [broadcastAll, List.mem_map] at hp
  obtain ⟨i, _, hi⟩ := hp
  rw [← hi]

theorem sentBroadcasts_snd (c : Ctx) :
    ∀ (l : List ActorId) (p : Nat × Msg), p ∈ sentBroadcasts c l →
      ∃ a, p.2 = Msg.unmuteActor a := by
  intro l
  induction l with
  | nil => intro p hp; cases hp
  | cons a rest ih =>
    intro p hp
    rcases List.mem_append.mp hp with h | h
    · exact ⟨a, broadcastAll_snd _ _ p h⟩
    · exact ih p h

/-- Frame of `ponyint_sched_unmute_senders`: it only appends
`UNMUTE_ACTOR` broadcasts to the log and actors to the run queue (the
return value is true iff the queue grew), leaving all scalar state
unchanged. -/
theorem unmute_senders_frame (c : Ctx) (s : SchedState) (recv : ActorId)
    (s2 : SchedState) (b : Bool)
    (h : ponyint_sched_unmute_senders c s recv = some (s2, b)) :
    (∃ ext, s2.sent = s.sent ++ ext ∧
      ∀ p ∈ ext, ∃ a, p.2 = Msg.unmuteActor a) ∧
    (∃ ext, s2.ownq = s.ownq ++ ext ∧ (b = true ↔ ext ≠ [])) ∧
    s2.asioNoisy = s.asioNoisy ∧ s2.terminate = s.terminate ∧
    s2.ackToken = s.ackToken ∧ s2.ackCount = s.ackCount ∧
    s2.asioStopped = s.asioStopped ∧ s2.blockCount = s.blockCount := by
  unfold ponyint_sched_unmute_senders at h
  cases hf : findRow s.mutemap recv with
  | none =>
    rw [hf] at h
    simp only [Option.some.injEq, Prod.mk.injEq] at h
    obtain ⟨h1, h2⟩ := h
    subst h1
    refine ⟨⟨[], by simp, by simp⟩, ⟨[], by simp, ?_⟩, rfl, rfl, rfl, rfl,
      rfl, rfl⟩
    simp [← h2]
  | some row =>
    simp only [hf] at h
    cases hc : collectZero row s.muted with
    | none => simp only [hc] at h; cases h
    | some p =>
      obtain ⟨m2, needs⟩ := p
      simp only [hc] at h
      rw [processUnmute_eq] at h
      simp only [Option.some.injEq, Prod.mk.injEq] at h
      obtain ⟨h1, h2⟩ := h
      subst h1
      refine ⟨⟨sentBroadcasts c needs.reverse, rfl, sentBroadcasts_snd c _⟩,
        ⟨needs.reverse.filter (fun a => !c.unscheduled a), rfl, ?_⟩,
        rfl, rfl, rfl, rfl, rfl, rfl⟩
      rw [← h2]
      simp only [decide_eq_true_eq, Nat.zero_add]
      rw [List.length_pos]

/-- Frame of one `read_msg` switch arm: the log only grows, never by a
`BLOCK` or `UNBLOCK`, and the run queue only grows, strictly iff the
`run_queue_changed` contribution is true. -/
theorem handleMsg_frame (c : Ctx) (s : SchedState) (m : Msg)
    (s' : SchedState) (b : Bool) (h : handleMsg c s m = some (s', b)) :
    (∃ ext, s'.sent = s.sent ++ ext ∧
      countMsg Msg.block ext = 0 ∧ countMsg Msg.unblock ext = 0) ∧
    (∃ ext, s'.ownq = s.ownq ++ ext ∧ (b = true ↔ ext ≠ [])) := by
  cases m with
  | block =>
    simp only [handleMsg] at h
    by_cases hd : c.detectQuiescence ∧
        (s.blockCount + 1) % 4294967296 = c.schedulerCount
    · rw [if_pos hd] at h
      simp only [Option.some.injEq, Prod.mk.injEq] at h
      obtain ⟨h1, h2⟩ := h
      subst h1
      refine ⟨⟨broadcastAll c.schedulerCount (Msg.cnf s.ackToken), rfl, ?_, ?_⟩,
        ⟨[], by simp [send_msg_all], by simp [← h2]⟩⟩
      · exact countMsg_eq_zero _ _ (fun p hp => by
          rw [broadcastAll_snd _ _ p hp]; intro hx; cases hx)
      · exact countMsg_eq_zero _ _ (fun p hp => by
          rw [broadcastAll_snd _ _ p hp]; intro hx; cases hx)
    · rw [if_neg hd] at h
      simp only [Option.some.injEq, Prod.mk.injEq] at h
      obtain ⟨h1, h2⟩ := h
      subst h1
      exact ⟨⟨[], by simp, by simp [countMsg], by simp [countMsg]⟩,
        ⟨[], by simp, by simp [← h2]⟩⟩
  | unblock =>
    simp only [handleMsg, Option.some.injEq, Prod.mk.injEq] at h
    obtain ⟨h1, h2⟩ := h
    subst h1
    exact ⟨⟨[], by simp, by simp [countMsg], by simp [countMsg]⟩,
      ⟨[], by simp, by simp [← h2]⟩⟩
  | cnf tok =>
    simp only [handleMsg, Option.some.injEq, Prod.mk.injEq] at h
    obtain ⟨h1, h2⟩ := h
    subst h1
    refine ⟨⟨[(0, Msg.ack tok)], by simp [send_msg], ?_, ?_⟩,
      ⟨[], by simp [send_msg], by simp [← h2]⟩⟩
    · simp [countMsg]
    · simp [countMsg]
  | ack tok =>
    simp only [handleMsg] at h
    by_cases ht : tok = s.ackToken
    · rw [if_pos ht] at h
      simp only [Option.some.injEq, Prod.mk.injEq] at h
      obtain ⟨h1, h2⟩ := h
      subst h1
      exact ⟨⟨[], by simp, by simp [countMsg], by simp [countMsg]⟩,
        ⟨[], by simp, by simp [← h2]⟩⟩
    · rw [if_neg ht] at h
      simp only [Option.some.injEq, Prod.mk.injEq] at h
      obtain ⟨h1, h2⟩ := h
      subst h1
      exact ⟨⟨[], by simp, by simp [countMsg], by simp [countMsg]⟩,
        ⟨[], by simp, by simp [← h2]⟩⟩
  | terminate =>
    simp only [handleMsg, Option.some.injEq, Prod.mk.injEq] at h
    obtain ⟨h1, h2⟩ := h
    subst h1
    exact ⟨⟨[], by simp, by simp [countMsg], by simp [countMsg]⟩,
      ⟨[], by simp, by simp [← h2]⟩⟩
  | unmuteActor a =>
    simp only [handleMsg] at h
    obtain ⟨⟨ext, hs, hmem⟩, hq, _⟩ := unmute_senders_frame c s a s' b h
    refine ⟨⟨ext, hs, ?_, ?_⟩, hq⟩
    · exact countMsg_eq_zero _ _ (fun p hp => by
        obtain ⟨x, hx⟩ := hmem p hp
        rw [hx]; intro hc; cases hc)
    · exact countMsg_eq_zero _ _ (fun p hp => by
        obtain ⟨x, hx⟩ := hmem p hp
        rw [hx]; intro hc; cases hc)
  | noisyAsio =>
    simp only [handleMsg, Option.some.injEq, Prod.mk.injEq] at h
    obtain ⟨h1, h2⟩ := h
    subst h1
    exact ⟨⟨[], by simp, by simp [countMsg], by simp [countMsg]⟩,
      ⟨[], by simp, by simp [← h2]⟩⟩
  | unnoisyAsio =>
    simp only [handleMsg, Option.some.injEq, Prod.mk.injEq] at h
    obtain ⟨h1, h2⟩ := h
    subst h1
    exact ⟨⟨[], by simp, by simp [countMsg], by simp [countMsg]⟩,
      ⟨[], by simp, by simp [← h2]⟩⟩

/-- Frame of draining a message list: the log only grows, never by a
`BLOCK` or `UNBLOCK`; the run queue only grows, strictly iff
`run_queue_changed` is true. -/
theorem read_msg_frame (c : Ctx) :
    ∀ (msgs : List Msg) (s : SchedState) (s' : SchedState) (b : Bool),
      read_msg c s msgs = some (s', b) →
      (∃ ext, s'.sent = s.sent ++ ext ∧
        countMsg Msg.block ext = 0 ∧ countMsg Msg.unblock ext = 0) ∧
      (∃ ext, s'.ownq = s.ownq ++ ext ∧ (b = true ↔ ext ≠ [])) := by
  intro msgs
  induction msgs with
  | nil =>
    intro s s' b h
    simp only [read_msg, Option.some.injEq, Prod.mk.injEq] at h
    obtain ⟨h1, h2⟩ := h
    subst h1
    exact ⟨⟨[], by simp, by simp [countMsg], by simp [countMsg]⟩,
      ⟨[], by simp, by simp [← h2]⟩⟩
  | cons m rest ih =>
    intro s s' b h
    simp only [read_msg] at h
    cases h1 : handleMsg c s m with
    | none => rw [h1] at h; cases h
    | some p1 =>
      obtain ⟨s1, b1⟩ := p1
      rw [h1] at h
      cases h2 : read_msg c s1 rest with
      | none => simp only [h2] at h; cases h
      | some p2 =>
        obtain ⟨s2, b2⟩ := p2
        simp only [h2, Option.some.injEq, Prod.mk.injEq] at h
        obtain ⟨hs, hb⟩ := h
        subst hs
        obtain ⟨⟨e1, he1, hbc1, huc1⟩, ⟨f1, hf1, hif1⟩⟩ :=
          handleMsg_frame c s m s1 b1 h1
        obtain ⟨⟨e2, he2, hbc2, huc2⟩, ⟨f2, hf2, hif2⟩⟩ := ih s1 s2 b2 h2
        constructor
        · refine ⟨e1 ++ e2, ?_, ?_, ?_⟩
          · rw [he2, he1, List.append_assoc]
          · rw [countMsg_append, hbc1, hbc2]
          · rw [countMsg_append, huc1, huc2]
        · refine ⟨f1 ++ f2, ?_, ?_⟩
          · rw [hf2, hf1, List.append_assoc]
          · rw [← hb]
            constructor
            · intro hor
              rcases Bool.or_eq_true_iff.mp hor with h | h
              · simp [hif1.mp h]
              · simp [hif2.mp h]
            · intro hne
              rw [Ne, List.append_eq_nil, not_and_or] at hne
              rcases hne with h | h
              · exact Bool.or_eq_true_iff.mpr (Or.inl (hif1.mpr h))
              · exact Bool.or_eq_true_iff.mpr (Or.inr (hif2.mpr h))

/-- Frame of `quiescent`: it never sends `BLOCK` or `UNBLOCK`, never
touches the run queue, the noisy flag, the mute table or the terminate
flag, and returns true only with the state unchanged and the terminate
flag already set. -/
theorem quiescent_frame (c : Ctx) (stopOk : Bool) (s : SchedState) :
    (∃ ext, (quiescent c stopOk s).2.sent = s.sent ++ ext ∧
      countMsg Msg.block ext = 0 ∧ countMsg Msg.unblock ext = 0) ∧
    (quiescent c stopOk s).2.ownq = s.ownq ∧
    (quiescent c stopOk s).2.asioNoisy = s.asioNoisy ∧
    (quiescent c stopOk s).2.mutemap = s.mutemap ∧
    (quiescent c stopOk s).2.terminate = s.terminate ∧
    ((quiescent c stopOk s).1 = true →
      (quiescent c stopOk s).2 = s ∧ s.terminate = true) := by
  unfold quiescent
  by_cases ht : s.terminate = true
  · rw [if_pos ht]
    exact ⟨⟨[], by simp, by simp [countMsg], by simp [countMsg]⟩, rfl, rfl,
      rfl, rfl, fun _ => ⟨rfl, ht⟩⟩
  · rw [if_neg ht]
    by_cases ha : s.ackCount = c.schedulerCount
    · rw [if_pos ha]
      by_cases hs : s.asioStopped = true
      · rw [if_pos hs]
        refine ⟨⟨broadcastAll c.schedulerCount Msg.terminate,
          by simp [send_msg_all], ?_, ?_⟩, by simp [send_msg_all],
          by simp [send_msg_all], by simp [send_msg_all],
          by simp [send_msg_all], by intro hx; cases hx⟩
        · exact countMsg_eq_zero _ _ (fun p hp => by
            rw [broadcastAll_snd _ _ p hp]; intro hx; cases hx)
        · exact countMsg_eq_zero _ _ (fun p hp => by
            rw [broadcastAll_snd _ _ p hp]; intro hx; cases hx)
      · rw [if_neg hs]
        by_cases hok : stopOk = true
        · rw [if_pos hok]
          refine ⟨⟨broadcastAll c.schedulerCount (Msg.cnf (s.ackToken + 1)),
            by simp [send_msg_all], ?_, ?_⟩, by simp [send_msg_all],
            by simp [send_msg_all], by simp [send_msg_all],
            by simp [send_msg_all], by intro hx; cases hx⟩
          · exact countMsg_eq_zero _ _ (fun p hp => by
              rw [broadcastAll_snd _ _ p hp]; intro hx; cases hx)
          · exact countMsg_eq_zero _ _ (fun p hp => by
              rw [broadcastAll_snd _ _ p hp]; intro hx; cases hx)
        · rw [if_neg hok]
          exact ⟨⟨[], by simp, by simp [countMsg], by simp [countMsg]⟩, rfl,
            rfl, rfl, rfl, by intro hx; cases hx⟩
    · rw [if_neg ha]
      exact ⟨⟨[], by simp, by simp [countMsg], by simp [countMsg]⟩, rfl,
        rfl, rfl, rfl, by intro hx; cases hx⟩

/-! ## The steal loop (`steal`, lines 261-357)

Cross-thread nondeterminism is an oracle indexed by the iteration
number: the combined victim/inject pop at the top of the loop
(`choose_victim` + `pop_global(victim)` or the inject pop), the inject
part of the self-pop after an unmute, the control messages delivered to
this worker's mailbox, the `cpu_tick` and the `asio_stop` results.
`startTick` is the `tsc` read before the loop. -/
structure StealOracle where
  stealPop : Nat → Option ActorId
  selfInject : Nat → Option ActorId
  inbox : Nat → List Msg
  tick : Nat → Nat
  asioStop : Nat → Bool
  startTick : Nat

/-- The steal loop's local state: the worker state plus the
`block_sent` latch and the `steal_attempts` counter. -/
structure LoopState where
  s : SchedState
  blockSent : Bool
  stealAttempts : Nat

/-- Outcome of one steal-loop iteration: leave the loop (with an actor,
or empty on termination) or continue. -/
inductive StepOut where
  | done : Option ActorId → LoopState → StepOut
  | next : LoopState → StepOut

/-- The loop state carried by a step outcome. -/
def outLS : StepOut → LoopState
  | StepOut.done _ ls => ls
  | StepOut.next ls => ls

/-- The self-pop after `read_msg` reported a queue change: `pop_global`
on this worker, with the inject part supplied by the oracle (`oi`). -/
def selfPop (changed : Bool) (oi : Option ActorId) (s1 : SchedState) :
    Option ActorId × SchedState :=
  if changed then
    match oi with
    | some a => (some a, s1)
    | none =>
      match s1.ownq with
      | [] => (none, s1)
      | a :: rest => (some a, { s1 with ownq := rest })
  else (none, s1)

/-- The blocked-latch policy at the bottom of the loop (lines 335-348):
once `block_sent` is set nothing happens; while fewer than
`scheduler_count` steal attempts were made the counter advances;
otherwise `BLOCK` is sent to the coordinator exactly when ASIO is not
noisy, more than a million cycles elapsed, and the mute table is empty.
`elapsed` is the result of the `(tsc2 - tsc) > 1000000` comparison. -/
def blockLatch (c : Ctx) (elapsed : Bool) (ls : LoopState)
    (s3 : SchedState) : LoopState :=
  if ls.blockSent then
    { ls with s := s3 }
  else if ls.stealAttempts < c.schedulerCount then
    { ls with s := s3, stealAttempts := ls.stealAttempts + 1 }
  else if (!s3.asioNoisy) && elapsed && (s3.mutemap.length == 0) then
    { ls with s := send_msg s3 0 Msg.block, blockSent := true }
  else
    { ls with s := s3 }

/-- One iteration of the steal loop body (`while(true)` in `steal`):
try the victim/inject pop; on failure read the clock, drain the mailbox,
self-pop if an unmute rescheduled something, run the quiescence step, and
finally consider sending `BLOCK` under the blocked-latch policy. -/
def stealStep (c : Ctx) (o : StealOracle) (i : Nat) (ls : LoopState) :
    Option StepOut :=
  match o.stealPop i with
  | some a => some (StepOut.done (some a) ls)
  | none =>
    match read_msg c ls.s (o.inbox i) with
    | none => none
    | some (s1, changed) =>
      match selfPop changed (o.selfInject i) s1 with
      | (some a, s2) => some (StepOut.done (some a) { ls with s := s2 })
      | (none, s2) =>
        match quiescent c (o.asioStop i) s2 with
        | (true, s3) => some (StepOut.done none { ls with s := s3 })
        | (false, s3) =>
          some (StepOut.next
            (blockLatch c (decide (o.tick i - o.startTick > 1000000)) ls s3))

/-- Run the steal loop for at most `fuel` iterations starting at
iteration `i`.  `none` means fuel ran out or an assertion failed; on a
successful pop the matching `UNBLOCK` is sent iff the latch was set; the
termination path returns without sending `UNBLOCK`. -/
def stealRun (c : Ctx) (o : StealOracle) :
    Nat → Nat → LoopState → Option (Option ActorId × LoopState)
  | 0, _, _ => none
  | fuel + 1, i, ls =>
    match stealStep c o i ls with
    | none => none
    | some (StepOut.done res ls2) =>
      match res with
      | some a =>
        some (some a,
          if ls2.blockSent then
            { ls2 with s := send_msg ls2.s 0 Msg.unblock }
          else ls2)
      | none => some (none, ls2)
    | some (StepOut.next ls2) => stealRun c o fuel (i + 1) ls2

/-- Model of `steal(sched)`: enter the loop with the latch clear and zero steal
attempts. -/
def steal (c : Ctx) (o : StealOracle) (fuel : Nat) (s0 : SchedState) :
    Option (Option ActorId × LoopState) :=
  stealRun c o fuel 0 { s := s0, blockSent := false, stealAttempts := 0 }

/-- Case analysis of the blocked latch: either nothing is sent and the
latch keeps its value, or the latch fires — only from a clear latch, only
after `scheduler_count` steal attempts, only with `elapsed`, a quiet ASIO
and an empty mute table — appending exactly one `BLOCK` to the log. -/
theorem blockLatch_cases (c : Ctx) (elapsed : Bool) (ls : LoopState)
    (s3 : SchedState) :
    ((blockLatch c elapsed ls s3).s.sent = s3.sent ∧
     (blockLatch c elapsed ls s3).blockSent = ls.blockSent) ∨
    (ls.blockSent = false ∧
     (blockLatch c elapsed ls s3).blockSent = true ∧
     (blockLatch c elapsed ls s3).s.sent = s3.sent ++ [(0, Msg.block)] ∧
     c.schedulerCount ≤ ls.stealAttempts ∧
     elapsed = true ∧ s3.asioNoisy = false ∧ s3.mutemap = []) := by
  unfold blockLatch
  by_cases hb : ls.blockSent = true
  · rw [if_pos hb]
    exact Or.inl ⟨rfl, rfl⟩
  · rw [if_neg hb]
    by_cases hatt : ls.stealAttempts < c.schedulerCount
    · rw [if_pos hatt]
      exact Or.inl ⟨rfl, rfl⟩
    · rw [if_neg hatt]
      by_cases hg : ((!s3.asioNoisy) && elapsed && (s3.mutemap.length == 0)) = true
      · rw [if_pos hg]
        simp only [Bool.and_eq_true, Bool.not_eq_true', beq_iff_eq] at hg
        refine Or.inr ⟨by simpa using hb, rfl, by simp [send_msg], ?_, ?_, ?_, ?_⟩
        · omega
        · exact hg.1.2
        · exact hg.1.1
        · exact List.length_eq_zero.mp hg.2
      · rw [if_neg hg]
        exact Or.inl ⟨rfl, rfl⟩

/-- The latch never touches the run queue, the noisy flag, the mute
table or the terminate flag. -/
theorem blockLatch_frame (c : Ctx) (elapsed : Bool) (ls : LoopState)
    (s3 : SchedState) :
    (blockLatch c elapsed ls s3).s.ownq = s3.ownq ∧
    (blockLatch c elapsed ls s3).s.asioNoisy = s3.asioNoisy ∧
    (blockLatch c elapsed ls s3).s.mutemap = s3.mutemap ∧
    (blockLatch c elapsed ls s3).s.terminate = s3.terminate := by
  unfold blockLatch
  repeat' split
  all_goals simp [send_msg]

/-- The latch is monotone in `block_sent`. -/
theorem blockLatch_mono (c : Ctx) (elapsed : Bool) (ls : LoopState)
    (s3 : SchedState) (hb : ls.blockSent = true) :
    (blockLatch c elapsed ls s3).blockSent = true := by
  unfold blockLatch
  rw [if_pos hb]
  exact hb

/-- The helper `selfPop` leaves the state alone except for popping the head of the
own queue when it supplies the actor from there. -/
theorem selfPop_cases (changed : Bool) (oi : Option ActorId)
    (s1 : SchedState) :
    (∃ a, selfPop changed oi s1 = (some a, s1)) ∨
    (∃ a rest, s1.ownq = a :: rest ∧
      selfPop changed oi s1 = (some a, { s1 with ownq := rest })) ∨
    (selfPop changed oi s1 = (none, s1) ∧
      (changed = true → s1.ownq = [])) := by
  unfold selfPop
  cases changed with
  | false =>
    refine Or.inr (Or.inr ⟨?_, ?_⟩)
    · simp
    · intro hx; cases hx
  | true =>
    simp only [if_pos rfl]
    cases oi with
    | some a => exact Or.inl ⟨a, rfl⟩
    | none =>
      cases hq : s1.ownq with
      | nil => exact Or.inr (Or.inr ⟨rfl, fun _ => rfl⟩)
      | cons a rest => exact Or.inr (Or.inl ⟨a, rest, rfl, rfl⟩)

/-- One steal-loop iteration appends no `UNBLOCK` to the log, appends a
`BLOCK` exactly when the latch transitions from clear to set, and keeps
the latch monotone. -/
theorem stealStep_inv (c : Ctx) (o : StealOracle) (i : Nat)
    (ls : LoopState) (out : StepOut) (h : stealStep c o i ls = some out) :
    ∃ ext, (outLS out).s.sent = ls.s.sent ++ ext ∧
      countMsg Msg.unblock ext = 0 ∧
      countMsg Msg.block ext =
        (if ls.blockSent then 0
         else if (outLS out).blockSent then 1 else 0) ∧
      (ls.blockSent = true → (outLS out).blockSent = true) := by
  unfold stealStep at h
  cases hp : o.stealPop i with
  | some a =>
    simp only [hp, Option.some.injEq] at h
    subst h
    refine ⟨[], by simp [outLS], by simp [countMsg], ?_, fun hb => hb⟩
    cases hb : ls.blockSent <;> simp [outLS, hb, countMsg]
  | none =>
    simp only [hp] at h
    cases hr : read_msg c ls.s (o.inbox i) with
    | none => rw [hr] at h; cases h
    | some p1 =>
      obtain ⟨s1, changed⟩ := p1
      simp only [hr] at h
      obtain ⟨⟨e1, he1, hb1, hu1⟩, _⟩ := read_msg_frame c (o.inbox i) ls.s s1 changed hr
      rcases selfPop_cases changed (o.selfInject i) s1 with
        ⟨a, hsp⟩ | ⟨a, rest, hq, hsp⟩ | ⟨hsp, hemp⟩
      · rw [hsp] at h
        simp only [Option.some.injEq] at h
        subst h
        refine ⟨e1, he1, hu1, ?_, fun hb => hb⟩
        cases hb : ls.blockSent <;> simp [outLS, hb, hb1]
      · rw [hsp] at h
        simp only [Option.some.injEq] at h
        subst h
        refine ⟨e1, he1, hu1, ?_, fun hb => hb⟩
        cases hb : ls.blockSent <;> simp [outLS, hb, hb1]
      · simp only [hsp] at h
        obtain ⟨⟨e2, he2, hb2, hu2⟩, hqq, _, _, _, himp⟩ :=
          quiescent_frame c (o.asioStop i) s1
        cases hquiet : quiescent c (o.asioStop i) s1 with
        | mk t s3 =>
          rw [hquiet] at h he2 himp
          cases t with
          | true =>
            simp only [Option.some.injEq] at h
            subst h
            refine ⟨e1 ++ e2, ?_, ?_, ?_, fun hb => hb⟩
            · simp only [outLS]
              rw [he2, he1, List.append_assoc]
            · rw [countMsg_append, hu1, hu2]
            · rw [countMsg_append, hb1, hb2]
              cases hb : ls.blockSent <;> simp [outLS, hb]
          | false =>
            simp only [Option.some.injEq] at h
            subst h
            rcases blockLatch_cases c
                (decide (o.tick i - o.startTick > 1000000)) ls s3 with
              ⟨hsent, hbs⟩ | ⟨hb0, hbs, hsent, _, _, _, _⟩
            · refine ⟨e1 ++ e2, ?_, ?_, ?_, ?_⟩
              · simp only [outLS]
                rw [hsent, he2, he1, List.append_assoc]
              · rw [countMsg_append, hu1, hu2]
              · rw [countMsg_append, hb1, hb2]
                simp only [outLS, hbs]
                cases hb : ls.blockSent <;> simp [hb]
              · intro hb
                simp only [outLS, hbs]
                exact hb
            · refine ⟨e1 ++ (e2 ++ [(0, Msg.block)]), ?_, ?_, ?_, ?_⟩
              · simp only [outLS]
                rw [hsent, he2, he1, List.append_assoc, List.append_assoc]
              · rw [countMsg_append, hu1, countMsg_append, hu2]
                simp [countMsg]
              · rw [countMsg_append, hb1, countMsg_append, hb2]
                simp only [outLS, hb0, hbs]
                simp [countMsg]
              · intro hb
                rw [hb] at hb0
                cases hb0

/-- If an iteration sets the latch (that is, sends `BLOCK`), then at that
iteration the worker had made at least `scheduler_count` steal attempts,
more than a million cycles had elapsed since the loop began, ASIO was not
noisy, and the mute table was empty. -/
theorem stealStep_latch_conditions (c : Ctx) (o : StealOracle) (i : Nat)
    (ls : LoopState) (out : StepOut) (h : stealStep c o i ls = some out)
    (hb : ls.blockSent = false) (hb2 : (outLS out).blockSent = true) :
    c.schedulerCount ≤ ls.stealAttempts ∧
    o.tick i - o.startTick > 1000000 ∧
    (outLS out).s.asioNoisy = false ∧ (outLS out).s.mutemap = [] := by
  unfold stealStep at h
  cases hp : o.stealPop i with
  | some a =>
    simp only [hp, Option.some.injEq] at h
    subst h
    rw [outLS] at hb2
    rw [hb] at hb2
    cases hb2
  | none =>
    simp only [hp] at h
    cases hr : read_msg c ls.s (o.inbox i) with
    | none => rw [hr] at h; cases h
    | some p1 =>
      obtain ⟨s1, changed⟩ := p1
      simp only [hr] at h
      rcases selfPop_cases changed (o.selfInject i) s1 with
        ⟨a, hsp⟩ | ⟨a, rest, hq, hsp⟩ | ⟨hsp, hemp⟩
      · rw [hsp] at h
        simp only [Option.some.injEq] at h
        subst h
        rw [outLS] at hb2
        rw [hb] at hb2
        cases hb2
      · rw [hsp] at h
        simp only [Option.some.injEq] at h
        subst h
        rw [outLS] at hb2
        rw [hb] at hb2
        cases hb2
      · simp only [hsp] at h
        cases hquiet : quiescent c (o.asioStop i) s1 with
        | mk t s3 =>
          rw [hquiet] at h
          cases t with
          | true =>
            simp only [Option.some.injEq] at h
            subst h
            rw [outLS] at hb2
            rw [hb] at hb2
            cases hb2
          | false =>
            simp only [Option.some.injEq] at h
            subst h
            rw [outLS] at hb2
            rcases blockLatch_cases c
                (decide (o.tick i - o.startTick > 1000000)) ls s3 with
              ⟨hsent, hbs⟩ | ⟨hb0, hbs, hsent, hatt, helapsed, hnoisy, hmute⟩
            · rw [hb2, hb] at hbs
              cases hbs
            · obtain ⟨_, hfn, hfm, _⟩ := blockLatch_frame c
                (decide (o.tick i - o.startTick > 1000000)) ls s3
              refine ⟨hatt, ?_, ?_, ?_⟩
              · exact of_decide_eq_true helapsed
              · rw [outLS, hfn, hnoisy]
              · rw [outLS, hfm, hmute]

/-- Run-level invariant of the steal loop: starting from latch state
`ls.blockSent`, exactly one `BLOCK` is appended iff the latch ends set
and started clear, and exactly one `UNBLOCK` is appended iff an actor is
returned with the latch set. -/
theorem stealRun_inv (c : Ctx) (o : StealOracle) :
    ∀ (fuel i : Nat) (ls : LoopState) (res : Option ActorId)
      (lsF : LoopState), stealRun c o fuel i ls = some (res, lsF) →
      (ls.blockSent = true → lsF.blockSent = true) ∧
      ∃ ext, lsF.s.sent = ls.s.sent ++ ext ∧
        countMsg Msg.block ext =
          (if ls.blockSent then 0 else if lsF.blockSent then 1 else 0) ∧
        countMsg Msg.unblock ext =
          (match res with
           | some _ => if lsF.blockSent then 1 else 0
           | none => 0) := by
  intro fuel
  induction fuel with
  | zero => intro i ls res lsF h; cases h
  | succ f ih =>
    intro i ls res lsF h
    rw [stealRun] at h
    cases hs : stealStep c o i ls with
    | none => rw [hs] at h; cases h
    | some out =>
      simp only [hs] at h
      obtain ⟨e1, he1, hu1, hb1, hmono1⟩ := stealStep_inv c o i ls out hs
      cases out with
      | done res0 ls2 =>
        simp only [outLS] at he1 hu1 hb1 hmono1
        cases res0 with
        | some a =>
          simp only [Option.some.injEq, Prod.mk.injEq] at h
          obtain ⟨hres, hlsF⟩ := h
          subst hres
          cases hbs : ls2.blockSent with
          | true =>
            rw [if_pos hbs] at hlsF
            subst hlsF
            refine ⟨fun _ => hbs, e1 ++ [(0, Msg.unblock)], ?_, ?_, ?_⟩
            · simp [send_msg, he1, List.append_assoc]
            · rw [countMsg_append, hb1]
              simp [countMsg]
            · rw [countMsg_append, hu1]
              simp [countMsg, hbs]
          | false =>
            rw [if_neg (by simp [hbs])] at hlsF
            subst hlsF
            refine ⟨fun hb => hmono1 hb, e1, ?_, ?_, ?_⟩
            · exact he1
            · exact hb1
            · rw [hu1]
              simp [hbs]
        | none =>
          simp only [Option.some.injEq, Prod.mk.injEq] at h
          obtain ⟨hres, hlsF⟩ := h
          subst hres
          subst hlsF
          exact ⟨hmono1, e1, he1, hb1, hu1⟩
      | next ls2 =>
        simp only [outLS] at he1 hu1 hb1 hmono1
        obtain ⟨hmono2, e2, he2, hb2, hu2⟩ := ih (i + 1) ls2 res lsF h
        refine ⟨fun hb => hmono2 (hmono1 hb), e1 ++ e2, ?_, ?_, ?_⟩
        · rw [he2, he1, List.append_assoc]
        · rw [countMsg_append, hb1, hb2]
          by_cases hb : ls.blockSent = true
          · simp [hb, hmono1 hb, hmono2 (hmono1 hb)]
          · simp only [Bool.not_eq_true] at hb
            by_cases hb2' : ls2.blockSent = true
            · simp [hb, hb2', hmono2 hb2']
            · simp only [Bool.not_eq_true] at hb2'
              simp [hb, hb2']
        · rw [countMsg_append, hu1, hu2]
          simp

/-- One steal-loop iteration preserves an empty own run queue across a
continue, and reaches the empty (termination) exit only with the
terminate flag set and the own queue empty. -/
theorem stealStep_ownq (c : Ctx) (o : StealOracle) (i : Nat)
    (ls : LoopState) (out : StepOut) (h : stealStep c o i ls = some out)
    (hq : ls.s.ownq = []) :
    (∀ ls2, out = StepOut.next ls2 → ls2.s.ownq = []) ∧
    (∀ ls2, out = StepOut.done none ls2 →
      ls2.s.terminate = true ∧ ls2.s.ownq = []) := by
  unfold stealStep at h
  cases hp : o.stealPop i with
  | some a =>
    simp only [hp, Option.some.injEq] at h
    subst h
    constructor
    · intro ls2 hx; cases hx
    · intro ls2 hx; simp at hx
  | none =>
    simp only [hp] at h
    cases hr : read_msg c ls.s (o.inbox i) with
    | none => rw [hr] at h; cases h
    | some p1 =>
      obtain ⟨s1, changed⟩ := p1
      simp only [hr] at h
      obtain ⟨_, f1, hf1, hciff⟩ := read_msg_frame c (o.inbox i) ls.s s1 changed hr
      rcases selfPop_cases changed (o.selfInject i) s1 with
        ⟨a, hsp⟩ | ⟨a, rest, hq2, hsp⟩ | ⟨hsp, hemp⟩
      · rw [hsp] at h
        simp only [Option.some.injEq] at h
        subst h
        constructor
        · intro ls2 hx; cases hx
        · intro ls2 hx; simp at hx
      · rw [hsp] at h
        simp only [Option.some.injEq] at h
        subst h
        constructor
        · intro ls2 hx; cases hx
        · intro ls2 hx; simp at hx
      · have hs1q : s1.ownq = [] := by
          cases hc : changed with
          | true => exact hemp hc
          | false =>
            have hf1nil : f1 = [] := by
              by_contra hne
              have := hciff.mpr hne
              rw [hc] at this
              cases this
            rw [hf1, hq, hf1nil]
            rfl
        simp only [hsp] at h
        obtain ⟨_, hqq, _, _, _, himp⟩ := quiescent_frame c (o.asioStop i) s1
        cases hquiet : quiescent c (o.asioStop i) s1 with
        | mk t s3 =>
          rw [hquiet] at h hqq himp
          cases t with
          | true =>
            simp only [Option.some.injEq] at h
            subst h
            constructor
            · intro ls2 hx; cases hx
            · intro ls2 hx
              obtain ⟨h1, h2⟩ := StepOut.done.inj hx
              subst h2
              obtain ⟨hse, hterm⟩ := himp rfl
              have hse' : s3 = s1 := hse
              have hqq' : s3.ownq = s1.ownq := hqq
              refine ⟨?_, ?_⟩
              · show s3.terminate = true
                rw [hse']
                exact hterm
              · show s3.ownq = []
                rw [hqq']
                exact hs1q
          | false =>
            simp only [Option.some.injEq] at h
            subst h
            constructor
            · intro ls2 hx
              obtain h1 := StepOut.next.inj hx
              subst h1
              obtain ⟨hlo, _, _, _⟩ := blockLatch_frame c
                (decide (o.tick i - o.startTick > 1000000)) ls s3
              have hqq' : s3.ownq = s1.ownq := hqq
              rw [hlo, hqq']
              exact hs1q
            · intro ls2 hx; cases hx

/-- If the steal loop returns empty, the worker's terminate flag is set,
and the own run queue (empty at entry) is still empty. -/
theorem stealRun_none (c : Ctx) (o : StealOracle) :
    ∀ (fuel i : Nat) (ls lsF : LoopState),
      stealRun c o fuel i ls = some (none, lsF) → ls.s.ownq = [] →
      lsF.s.terminate = true ∧ lsF.s.ownq = [] := by
  intro fuel
  induction fuel with
  | zero => intro i ls lsF h; cases h
  | succ f ih =>
    intro i ls lsF h hq
    rw [stealRun] at h
    cases hs : stealStep c o i ls with
    | none => rw [hs] at h; cases h
    | some out =>
      simp only [hs] at h
      cases out with
      | done res0 ls2 =>
        cases res0 with
        | some a => simp at h
        | none =>
          simp only [Option.some.injEq, Prod.mk.injEq] at h
          obtain ⟨_, hlsF⟩ := h
          subst hlsF
          exact (stealStep_ownq c o i ls _ hs hq).2 ls2 rfl
      | next ls2 =>
        have hq2 : ls2.s.ownq = [] :=
          (stealStep_ownq c o i ls _ hs hq).1 ls2 rfl
        exact ih (i + 1) ls2 lsF h hq2

/-- C4: a steal-loop invocation that returns an actor has sent exactly
one `UNBLOCK` iff it sent exactly one `BLOCK` (and never more than one of
either), so its net contribution to the coordinator's `block_count` is
zero. -/
theorem steal_unblock_pairing (c : Ctx) (o : StealOracle) (fuel : Nat)
    (s0 : SchedState) (a : ActorId) (lsF : LoopState)
    (h : steal c o fuel s0 = some (some a, lsF)) :
    ∃ ext, lsF.s.sent = s0.sent ++ ext ∧
      countMsg Msg.block ext = countMsg Msg.unblock ext ∧
      countMsg Msg.block ext ≤ 1 := by
  obtain ⟨_, ext, he, hb, hu⟩ :=
    stealRun_inv c o fuel 0 ⟨s0, false, 0⟩ (some a) lsF h
  refine ⟨ext, he, ?_, ?_⟩
  · rw [hb, hu]
    simp
  · rw [hb]
    by_cases hbs : lsF.blockSent = true <;> simp [hbs]

/-- Witness for C4: a first-iteration successful steal sends neither
message, so the counts are equal (both zero). -/
def oPopDemo : StealOracle :=
  { stealPop := fun _ => some 9, selfInject := fun _ => none,
    inbox := fun _ => [], tick := fun _ => 0, asioStop := fun _ => false,
    startTick := 0 }

theorem steal_unblock_pairing_witness :
    steal cdemo oPopDemo 1 s0demo = some (some 9, ⟨s0demo, false, 0⟩) ∧
    ∃ ext, (⟨s0demo, false, 0⟩ : LoopState).s.sent = s0demo.sent ++ ext ∧
      countMsg Msg.block ext = countMsg Msg.unblock ext ∧
      countMsg Msg.block ext ≤ 1 := by
  exact ⟨rfl, steal_unblock_pairing cdemo oPopDemo 1 s0demo 9 _ rfl⟩

/-- C3: a `BLOCK` is sent only at an iteration where the latch is still
clear, at least `scheduler_count` steal attempts have been made, more
than 1,000,000 cycles have elapsed since the loop began, ASIO is not
noisy and the mute table is empty; and a whole invocation sends at most
one `BLOCK`. -/
theorem steal_block_conditions :
    (∀ (c : Ctx) (o : StealOracle) (i : Nat) (ls : LoopState)
      (out : StepOut), stealStep c o i ls = some out →
      ls.blockSent = false → (outLS out).blockSent = true →
      c.schedulerCount ≤ ls.stealAttempts ∧
      o.tick i - o.startTick > 1000000 ∧
      (outLS out).s.asioNoisy = false ∧ (outLS out).s.mutemap = []) ∧
    (∀ (c : Ctx) (o : StealOracle) (fuel : Nat) (s0 : SchedState)
      (res : Option ActorId) (lsF : LoopState),
      steal c o fuel s0 = some (res, lsF) →
      ∃ ext, lsF.s.sent = s0.sent ++ ext ∧
        countMsg Msg.block ext ≤ 1) := by
  constructor
  · exact stealStep_latch_conditions
  · intro c o fuel s0 res lsF h
    obtain ⟨_, ext, he, hb, _⟩ :=
      stealRun_inv c o fuel 0 ⟨s0, false, 0⟩ res lsF h
    refine ⟨ext, he, ?_⟩
    rw [hb]
    by_cases hbs : lsF.blockSent = true <;> simp [hbs]

/-- Witness for C3: an idle worker past its steal-attempt budget with a
quiet ASIO, an empty mute table and two million elapsed cycles fires the
latch, and the conditions hold at that step. -/
def oIdleDemo : StealOracle :=
  { stealPop := fun _ => none, selfInject := fun _ => none,
    inbox := fun _ => [], tick := fun _ => 2000000,
    asioStop := fun _ => false, startTick := 0 }

theorem steal_block_conditions_witness :
    cdemo.schedulerCount ≤ 1 ∧
    oIdleDemo.tick 0 - oIdleDemo.startTick > 1000000 ∧
    (outLS (StepOut.next
      ⟨send_msg s0demo 0 Msg.block, true, 1⟩)).s.asioNoisy = false ∧
    (outLS (StepOut.next
      ⟨send_msg s0demo 0 Msg.block, true, 1⟩)).s.mutemap = [] := by
  exact steal_block_conditions.1 cdemo oIdleDemo 0 ⟨s0demo, false, 1⟩
    (StepOut.next ⟨send_msg s0demo 0 Msg.block, true, 1⟩) rfl rfl rfl

/-- C9: `quiescent` returns true only when the worker's terminate flag is
set, and whenever the steal loop returns empty the terminate flag is set
and the own run queue (empty at entry, as in `run`) is still empty; any
other successful outcome of the loop carries an actor. -/
theorem steal_none_terminate :
    (∀ (c : Ctx) (stopOk : Bool) (s : SchedState),
      (quiescent c stopOk s).1 = true → s.terminate = true) ∧
    (∀ (c : Ctx) (o : StealOracle) (fuel : Nat) (s0 : SchedState)
      (lsF : LoopState), steal c o fuel s0 = some (none, lsF) →
      s0.ownq = [] → lsF.s.terminate = true ∧ lsF.s.ownq = []) := by
  constructor
  · intro c stopOk s hq
    exact ((quiescent_frame c stopOk s).2.2.2.2.2 hq).2
  · intro c o fuel s0 lsF h hq
    exact stealRun_none c o fuel 0 ⟨s0, false, 0⟩ lsF h hq

/-- Witness for C9: with the terminate flag set and an empty queue, one
iteration returns empty with both postconditions. -/
def sTermOnlyDemo : SchedState :=
  { s0demo with terminate := true }

theorem steal_none_terminate_witness :
    steal cdemo oIdleDemo 1 sTermOnlyDemo =
      some (none, ⟨sTermOnlyDemo, false, 0⟩) ∧
    (⟨sTermOnlyDemo, false, 0⟩ : LoopState).s.terminate = true ∧
    (⟨sTermOnlyDemo, false, 0⟩ : LoopState).s.ownq = [] := by
  have h := steal_none_terminate.2 cdemo oIdleDemo 1 sTermOnlyDemo
    ⟨sTermOnlyDemo, false, 0⟩ rfl rfl
  exact ⟨rfl, h.1, h.2⟩
